import Mathlib

/-!
Verification of the tree-to-sunburst flattening pass.

Shallow embedding of the record-flattening loop of
`visualize_tree_as_sunburst` (`src/tree_to_sunburst.py`, lines 144-227).
The loop walks the flat node array of a trained decision tree
(`model.tree_.__getstate__()['nodes']`) and builds a list of split
records; each record is materialised as a one-row numpy structured array
with dtype
`[('parent_id','U256'),('split_id','U256'),('split_name','U256'),('value','i'),('colour','U256')]`
and the rows are joined with `np.concatenate` at the end.

The embedding models:
* a tree node (one entry of the `nodes` structured array) with integer
  child/feature fields and a rational threshold (every IEEE double is an
  exact rational, and Python's fixed two-decimal formatting of a double
  is exact decimal rounding, ties-to-even, of that rational);
* Python `dict` / `collections.defaultdict` as insertion-ordered
  association lists (`update` replaces in place or appends; a missing
  key yields the default);
* numpy 1-d integer indexing (negative indices wrap, out-of-range
  indices raise `IndexError`);
* the `U256` fixed-width unicode slots (silent truncation to the first
  256 characters) and the `'i'` int32 slot (wrap-around cast);
* `np.concatenate([])`, which raises `ValueError`.
-/

/-- One entry of the `nodes` structured array of a fitted sklearn tree
(`model.tree_.__getstate__()['nodes']`): `left_child`, `right_child`,
`feature` are int64 fields, `threshold` is a float64 field (modelled by
its exact rational value), `n_node_samples` is an int64 field. -/
structure TreeNode where
  left_child : ℤ
  right_child : ℤ
  feature : ℤ
  threshold : ℚ
  n_node_samples : ℤ
deriving DecidableEq

/-- One output row: the fields of the structured array built from
`sunburst_args` (lines 144-150 of the source). -/
structure SplitRecord where
  parent_id : String
  split_id : String
  split_name : String
  value : ℤ
  colour : String
deriving DecidableEq

/-- The ways the flattening pass can raise in Python:
`indexError` is numpy's `IndexError` on an out-of-range child index
(line 192/194, `tree_node_structure[node_info['left_child']]`);
`concatenateError` is the `ValueError` raised by
`np.concatenate(all_node_details)` (line 227) when `all_node_details`
is the empty list. -/
inductive FlattenError where
  | indexError
  | concatenateError
deriving DecidableEq

deriving instance DecidableEq for Except

/-- Python dict assignment / one-key `update`: insertion-ordered
association list; an existing key is overwritten in place, a new key is
appended at the end. -/
def dictUpdate {α β : Type} [DecidableEq α] (d : List (α × β)) (k : α) (v : β) :
    List (α × β) :=
  if k ∈ d.map Prod.fst then d.map (fun p => if p.1 = k then (k, v) else p)
  else d ++ [(k, v)]

/-- Python dict lookup with a default: `defaultdict.__getitem__` for a
`defaultdict` whose factory returns `dflt` (the factory's insertion of
the default into the dict is unobservable here: no later lookup or
overwrite can distinguish it), and ordinary `dict.__getitem__` at keys
known to be present. -/
def dictGetD {α β : Type} [DecidableEq α] (d : List (α × β)) (dflt : β) (k : α) : β :=
  match d with
  | [] => dflt
  | p :: rest => if p.1 = k then p.2 else dictGetD rest dflt k

/-- `feature_names_lookup` (line 152 of the source):
`defaultdict(lambda: '', enumerate(model.feature_names_in_))` — maps
feature index `i` in `0 ≤ i < len(names)` to `names[i]` and every other
key to the empty string. -/
def feature_names_lookup (names : List String) (i : ℤ) : String :=
  if h : 0 ≤ i ∧ i < (names.length : ℤ) then
    names.get ⟨i.toNat, by omega⟩
  else ""

/-- numpy 1-d integer indexing of the `nodes` array: an index in
`[0, n)` selects directly, an index in `[-n, 0)` wraps, anything else
raises `IndexError`. -/
def pyGetNode (nodes : List TreeNode) (i : ℤ) : Except FlattenError TreeNode :=
  if h : 0 ≤ i ∧ i < (nodes.length : ℤ) then
    .ok (nodes.get ⟨i.toNat, by omega⟩)
  else if h' : -(nodes.length : ℤ) ≤ i ∧ i < 0 then
    .ok (nodes.get ⟨((nodes.length : ℤ) + i).toNat, by omega⟩)
  else .error .indexError

/-- Left-pad a two-digit fraction part with `0`. -/
def pad2 (n : ℕ) : String :=
  if n < 10 then "0" ++ Nat.repr n else Nat.repr n

/-- Python `'{:.2f}'.format(v)` for a float64 `v` whose exact rational
value is `q` (in lowest terms, `q = q.num / q.den`): the sign of the
value, then the decimal digits of the magnitude `|q.num| / q.den`
rounded to hundredths — nearest, ties to even, computed by comparing
twice the remainder of `100·|q.num|` by `q.den` against `q.den` — with
exactly two fraction digits and no exponent regardless of magnitude. -/
def format2 (q : ℚ) : String :=
  let t := 100 * q.num.natAbs
  let fl := t / q.den
  let r := t % q.den
  let m := if 2 * r < q.den then fl
           else if q.den < 2 * r then fl + 1
           else if fl % 2 = 0 then fl else fl + 1
  (if q.num < 0 then "-" else "") ++ Nat.repr (m / 100) ++ "." ++ pad2 (m % 100)

/-- `split_name_templates['left_child']` applied at line 181:
`'{} <= {:.2f}'.format(feature, threshold)`. -/
def split_name_left (feature : String) (threshold : ℚ) : String :=
  feature ++ " <= " ++ format2 threshold

/-- `split_name_templates['right_child']` applied at line 183:
`'{} > {:.2f}'.format(feature, threshold)`. -/
def split_name_right (feature : String) (threshold : ℚ) : String :=
  feature ++ " > " ++ format2 threshold

/-- Storage of a Python string in a `U256` structured-array slot:
silent truncation to the first 256 characters (numpy fixed-width
unicode keeps the leading code points and drops the rest). -/
def toU256 (s : String) : String := String.mk (s.data.take 256)

/-- Storage of an int64 value in an `'i'` (int32) structured-array
slot: wrap-around cast. -/
def toI32 (z : ℤ) : ℤ := (z + 2 ^ 31) % 2 ^ 32 - 2 ^ 31

/-- `np.array([tuple(node_details)], dtype = sunburst_args)`
(lines 218-220): one row with the four string fields stored in `U256`
slots and the value stored in an int32 slot. -/
def mkSplitRecord (parent_id split_id split_name : String) (value : ℤ)
    (colour : String) : SplitRecord :=
  ⟨toU256 parent_id, toU256 split_id, toU256 split_name, toI32 value, toU256 colour⟩

/-- The loop-carried state of the flattening pass: the three dicts and
the list of one-row arrays (lines 157-161 of the source). -/
structure FlattenState where
  split_names_lookup : List (String × String)
  split_value_lookup : List (String × ℤ)
  child_parent_lookup : List (ℤ × String)
  all_node_details : List SplitRecord
deriving DecidableEq

/-- The initial state: two empty dicts, an empty
`defaultdict(lambda: '')` and the empty record list. -/
def initState : FlattenState := ⟨[], [], [], []⟩

/-- One iteration of the `for node_idx, node_info in
enumerate(tree_node_structure)` loop (lines 162-225 of the source).

A node with `left_child == -1` is a leaf and is skipped (lines
164-166).  Otherwise: resolve the feature name (default `''`), mint
`left_idx = str(len(split_names_lookup))` and `right_idx =
str(len(split_names_lookup) + 1)`, update `split_names_lookup` with the
two formatted labels, read the two children's `n_node_samples` by numpy
indexing (raising `IndexError` when a child index is out of range) and
update `split_value_lookup`, append the left and then the right record
(each one a one-row structured array), and finally record the two fresh
ids in `child_parent_lookup` keyed by the child indices. -/
def processNode (nodes : List TreeNode) (names : List String) (node_idx : ℕ)
    (s : FlattenState) (node_info : TreeNode) : Except FlattenError FlattenState :=
  if node_info.left_child = -1 then .ok s
  else
    let feature := feature_names_lookup names node_info.feature
    let threshold := node_info.threshold
    let left_n := s.split_names_lookup.length
    let right_idx := Nat.repr (left_n + 1)
    let left_idx := Nat.repr left_n
    let names1 :=
      dictUpdate (dictUpdate s.split_names_lookup left_idx
          (split_name_left feature threshold))
        right_idx (split_name_right feature threshold)
    match pyGetNode nodes node_info.left_child with
    | .error e => .error e
    | .ok left_node =>
      match pyGetNode nodes node_info.right_child with
      | .error e => .error e
      | .ok right_node =>
        let values1 :=
          dictUpdate (dictUpdate s.split_value_lookup left_idx
              left_node.n_node_samples)
            right_idx right_node.n_node_samples
        let parent := dictGetD s.child_parent_lookup "" (node_idx : ℤ)
        let recL := mkSplitRecord parent left_idx (dictGetD names1 "" left_idx)
          (dictGetD values1 0 left_idx) feature
        let recR := mkSplitRecord parent right_idx (dictGetD names1 "" right_idx)
          (dictGetD values1 0 right_idx) feature
        let cp1 :=
          dictUpdate (dictUpdate s.child_parent_lookup node_info.left_child left_idx)
            node_info.right_child right_idx
        .ok ⟨names1, values1, cp1, s.all_node_details ++ [recL, recR]⟩

/-- The whole `for` loop: process the remaining nodes in array order,
threading the state; `node_idx` is the enumeration counter.  A raise
aborts the loop. -/
def flattenLoop (nodes : List TreeNode) (names : List String) :
    ℕ → FlattenState → List TreeNode → Except FlattenError FlattenState
  | _, s, [] => .ok s
  | idx, s, nd :: rest =>
    match processNode nodes names idx s nd with
    | .error e => .error e
    | .ok s' => flattenLoop nodes names (idx + 1) s' rest

/-- The record-building part of `visualize_tree_as_sunburst` (the spec's
`flatten`): run the loop over the whole node array, then
`np.concatenate(all_node_details)` — which raises `ValueError` when the
list of one-row arrays is empty, and otherwise yields the row sequence
handed to `px.sunburst`. -/
def flatten (nodes : List TreeNode) (names : List String) :
    Except FlattenError (List SplitRecord) :=
  match flattenLoop nodes names 0 initState nodes with
  | .error e => .error e
  | .ok s =>
    if s.all_node_details.isEmpty then .error .concatenateError
    else .ok s.all_node_details

/-- Number of non-leaf nodes (`left_child ≠ -1`) in a node list. -/
def countNonLeaf : List TreeNode → ℕ
  | [] => 0
  | nd :: rest => (if nd.left_child = -1 then 0 else 1) + countNonLeaf rest

/-- The successor state produced by one non-leaf iteration whose two
child reads returned `lnode` and `rnode`: the form of `processNode`'s
result after resolving the two immediate dict reads
(`split_names_lookup[el]`, `split_value_lookup[el]`), which always hit
the key just written.  `processNode_nonleaf` proves the equivalence. -/
def stepState (names : List String) (node_idx : ℕ) (s : FlattenState)
    (node_info lnode rnode : TreeNode) : FlattenState :=
  let feature := feature_names_lookup names node_info.feature
  let threshold := node_info.threshold
  let left_idx := Nat.repr s.split_names_lookup.length
  let right_idx := Nat.repr (s.split_names_lookup.length + 1)
  let parent := dictGetD s.child_parent_lookup "" (node_idx : ℤ)
  { split_names_lookup :=
      dictUpdate (dictUpdate s.split_names_lookup left_idx
          (split_name_left feature threshold))
        right_idx (split_name_right feature threshold),
    split_value_lookup :=
      dictUpdate (dictUpdate s.split_value_lookup left_idx
          lnode.n_node_samples)
        right_idx rnode.n_node_samples,
    child_parent_lookup :=
      dictUpdate (dictUpdate s.child_parent_lookup node_info.left_child left_idx)
        node_info.right_child right_idx,
    all_node_details := s.all_node_details ++
      [mkSplitRecord parent left_idx (split_name_left feature threshold)
          lnode.n_node_samples feature,
        mkSplitRecord parent right_idx (split_name_right feature threshold)
          rnode.n_node_samples feature] }

/-- A child index outside numpy's valid range for a 1-d array of the
given length: neither direct nor wrap-around indexing applies, so
reading the child raises `IndexError`. -/
def outOfRange (nodes : List TreeNode) (i : ℤ) : Prop :=
  i < -(nodes.length : ℤ) ∨ (nodes.length : ℤ) ≤ i

instance (nodes : List TreeNode) (i : ℤ) : Decidable (outOfRange nodes i) := by
  unfold outOfRange
  infer_instance

/-- A non-leaf node one of whose child indices is out of numpy range:
processing it raises `IndexError`. -/
def hasBadChild (nodes : List TreeNode) (nd : TreeNode) : Prop :=
  nd.left_child ≠ -1 ∧ (outOfRange nodes nd.left_child ∨ outOfRange nodes nd.right_child)

instance (nodes : List TreeNode) (nd : TreeNode) : Decidable (hasBadChild nodes nd) := by
  unfold hasBadChild
  infer_instance

/-- Validity of the input node array, from the spec's preconditions
(sections 3 and 4.1): sample counts are non-negative, and the structure
encodes a tree — every non-leaf node's two children are distinct valid
indices placed after their parent in the array (sklearn's tree builder
always appends children after the parent, which is what makes
array-order visitation correct), and no index is claimed as a child by
two different splits. -/
def ValidTree (nodes : List TreeNode) : Prop :=
  (∀ nd ∈ nodes, 0 ≤ nd.n_node_samples) ∧
  (∀ i (h : i < nodes.length), (nodes.get ⟨i, h⟩).left_child ≠ -1 →
    ((i : ℤ) < (nodes.get ⟨i, h⟩).left_child ∧
      (nodes.get ⟨i, h⟩).left_child < (nodes.length : ℤ)) ∧
    ((i : ℤ) < (nodes.get ⟨i, h⟩).right_child ∧
      (nodes.get ⟨i, h⟩).right_child < (nodes.length : ℤ)) ∧
    (nodes.get ⟨i, h⟩).left_child ≠ (nodes.get ⟨i, h⟩).right_child) ∧
  (∀ i (hi : i < nodes.length), ∀ j (hj : j < nodes.length), i ≠ j →
    (nodes.get ⟨i, hi⟩).left_child ≠ -1 → (nodes.get ⟨j, hj⟩).left_child ≠ -1 →
    (nodes.get ⟨i, hi⟩).left_child ≠ (nodes.get ⟨j, hj⟩).left_child ∧
    (nodes.get ⟨i, hi⟩).left_child ≠ (nodes.get ⟨j, hj⟩).right_child ∧
    (nodes.get ⟨i, hi⟩).right_child ≠ (nodes.get ⟨j, hj⟩).left_child ∧
    (nodes.get ⟨i, hi⟩).right_child ≠ (nodes.get ⟨j, hj⟩).right_child)

instance (nodes : List TreeNode) : Decidable (ValidTree nodes) := by
  unfold ValidTree
  refine @instDecidableAnd _ _ ?_ (@instDecidableAnd _ _ ?_ ?_) <;> infer_instance

/-- The decimal digit characters of `n`, most significant first: the
mathematical specification of `Nat.repr` (Python's `str` on a
non-negative `int`), used to prove `Nat.repr` injective. -/
def decRepr (n : ℕ) : List Char :=
  if _h : n < 10 then [Nat.digitChar n]
  else decRepr (n / 10) ++ [Nat.digitChar (n % 10)]
decreasing_by exact Nat.div_lt_self (by omega) (by omega)

/-- The rational `3/2`, the exact value of the float64 `1.5`. -/
def q32 : ℚ := ⟨3, 2, by decide, by decide⟩

/-- The rational `0` (stands in for the irrelevant threshold slot of
leaf nodes in concrete inputs; sklearn stores `-2.0` there, but the
value is never formatted for a leaf). -/
def q0 : ℚ := ⟨0, 1, by decide, by decide⟩

/-- A leaf node with the given sample count (concrete-input helper). -/
def leafNode (ns : ℤ) : TreeNode := ⟨-1, -1, -2, q0, ns⟩

/-- Concrete input: one root split with two leaf children (the spec's
worked example: feature name `f0`, threshold `1.50`). -/
def exNodes : List TreeNode := [⟨1, 2, 0, q32, 10⟩, leafNode 4, leafNode 6]

/-- The output rows of `flatten exNodes ["f0"]`. -/
def exOut : List SplitRecord :=
  [⟨"", "0", "f0 <= 1.50", 4, "f0"⟩, ⟨"", "1", "f0 > 1.50", 6, "f0"⟩]

/-- Concrete three-level tree: the root splits on `f0`, its left child
(index 1) splits again on `f1`, all other nodes are leaves. -/
def ex3Nodes : List TreeNode :=
  [⟨1, 2, 0, q32, 10⟩, ⟨3, 4, 1, q32, 6⟩, leafNode 4, leafNode 2, leafNode 4]

/-- The output rows of `flatten ex3Nodes ["f0", "f1"]`. -/
def ex3Out : List SplitRecord :=
  [⟨"", "0", "f0 <= 1.50", 6, "f0"⟩, ⟨"", "1", "f0 > 1.50", 4, "f0"⟩,
    ⟨"0", "2", "f1 <= 1.50", 2, "f1"⟩, ⟨"0", "3", "f1 > 1.50", 4, "f1"⟩]

/-- Concrete malformed input: the root claims node 1 as both its left
and its right child (children shared, the tree invariant is violated). -/
def sharedChildNodes : List TreeNode := [⟨1, 1, 0, q32, 10⟩, leafNode 5]

/-- The rows `flatten` nevertheless produces for `sharedChildNodes`. -/
def sharedChildOut : List SplitRecord :=
  [⟨"", "0", "f0 <= 1.50", 5, "f0"⟩, ⟨"", "1", "f0 > 1.50", 5, "f0"⟩]

/-- Concrete malformed input: the root's right child index 5 is out of
range for a 2-element array. -/
def oobChildNodes : List TreeNode := [⟨1, 5, 0, q32, 10⟩, leafNode 5]

/-- A 257-character feature name (`'b' * 257`): does not fit a `U256`
slot. -/
def longNameB : String := String.mk (List.replicate 257 'b')

/-- Root split on the overlong feature name `longNameB`. -/
def longNameBNodes : List TreeNode := [⟨1, 2, 0, q32, 10⟩, leafNode 4, leafNode 6]

/-- What `flatten longNameBNodes [longNameB]` emits: the label and
colour slots keep only the first 256 characters. -/
def longNameBOut : List SplitRecord :=
  [⟨"", "0", String.mk (List.replicate 256 'b'), 4, String.mk (List.replicate 256 'b')⟩,
    ⟨"", "1", String.mk (List.replicate 256 'b'), 6, String.mk (List.replicate 256 'b')⟩]

/-- Concrete input whose left leaf carries `2^31` samples: a count that
does not fit the int32 `value` slot. -/
def bigCountNodes : List TreeNode :=
  [⟨1, 2, 0, q32, 2 ^ 31 + 6⟩, leafNode (2 ^ 31), leafNode 6]

/-- What `flatten bigCountNodes ["f0"]` emits: the left row's `value`
slot wraps to `-2^31`. -/
def bigCountOut : List SplitRecord :=
  [⟨"", "0", "f0 <= 1.50", -(2 ^ 31), "f0"⟩, ⟨"", "1", "f0 > 1.50", 6, "f0"⟩]

/-- A 300-character feature name (`'a' * 300`). -/
def longNameA : String := String.mk (List.replicate 300 'a')

/-- Root split on the overlong feature name `longNameA`. -/
def longNameANodes : List TreeNode := [⟨1, 2, 0, q32, 10⟩, leafNode 4, leafNode 6]

/-- What `flatten longNameANodes [longNameA]` emits: every string slot
holds at most 256 characters. -/
def longNameAOut : List SplitRecord :=
  [⟨"", "0", String.mk (List.replicate 256 'a'), 4, String.mk (List.replicate 256 'a')⟩,
    ⟨"", "1", String.mk (List.replicate 256 'a'), 6, String.mk (List.replicate 256 'a')⟩]

/-- Invariant of the flattening loop after processing the first `m`
nodes, state `s`:
1. the keys of `split_names_lookup` are exactly the decimal strings
   `"0"`, ..., `str(2·c − 1)` where `c` non-leaf nodes were processed —
   the dict length is the id counter, growing by exactly 2 per split;
2. two output rows exist per processed non-leaf node;
3. row `p` carries `split_id = str(p)` (stored in its `U256` slot);
4. every value of `child_parent_lookup` is the empty default or an
   already-minted id;
5. every row's `parent_id` is empty or the `split_id` of an earlier row;
6. the two rows of each processed non-leaf node are fully determined:
   left then right, labels from the two templates over the node's own
   feature name and threshold, values from the two children's sample
   counts, colour from the node's feature name, and a shared parent id. -/
def LoopInv (nodes : List TreeNode) (names : List String) (m : ℕ)
    (s : FlattenState) : Prop :=
  s.split_names_lookup.map Prod.fst =
    (List.range (2 * countNonLeaf (nodes.take m))).map Nat.repr ∧
  s.all_node_details.length = 2 * countNonLeaf (nodes.take m) ∧
  (∀ p (hp : p < s.all_node_details.length),
    (s.all_node_details.get ⟨p, hp⟩).split_id = toU256 (Nat.repr p)) ∧
  (∀ k : ℤ, dictGetD s.child_parent_lookup "" k = "" ∨
    ∃ p, p < 2 * countNonLeaf (nodes.take m) ∧
      dictGetD s.child_parent_lookup "" k = Nat.repr p) ∧
  (∀ p (hp : p < s.all_node_details.length),
    (s.all_node_details.get ⟨p, hp⟩).parent_id = "" ∨
    ∃ q, q < p ∧ ∃ (hq : q < s.all_node_details.length),
      (s.all_node_details.get ⟨q, hq⟩).split_id =
        (s.all_node_details.get ⟨p, hp⟩).parent_id) ∧
  (∀ i (hi : i < m) (him : i < nodes.length),
    (nodes.get ⟨i, him⟩).left_child ≠ -1 →
    ∀ lnode, pyGetNode nodes (nodes.get ⟨i, him⟩).left_child = .ok lnode →
    ∀ rnode, pyGetNode nodes (nodes.get ⟨i, him⟩).right_child = .ok rnode →
    ∃ (h2 : 2 * countNonLeaf (nodes.take i) + 1 < s.all_node_details.length)
      (parent : String),
      s.all_node_details.get ⟨2 * countNonLeaf (nodes.take i), by omega⟩ =
        mkSplitRecord parent (Nat.repr (2 * countNonLeaf (nodes.take i)))
          (split_name_left (feature_names_lookup names (nodes.get ⟨i, him⟩).feature)
            (nodes.get ⟨i, him⟩).threshold)
          lnode.n_node_samples
          (feature_names_lookup names (nodes.get ⟨i, him⟩).feature) ∧
      s.all_node_details.get ⟨2 * countNonLeaf (nodes.take i) + 1, h2⟩ =
        mkSplitRecord parent (Nat.repr (2 * countNonLeaf (nodes.take i) + 1))
          (split_name_right (feature_names_lookup names (nodes.get ⟨i, him⟩).feature)
            (nodes.get ⟨i, him⟩).threshold)
          rnode.n_node_samples
          (feature_names_lookup names (nodes.get ⟨i, him⟩).feature))

/-! ## Sanity checks: the embedding computes -/

theorem sanity_flatten_example : flatten exNodes ["f0"] = .ok exOut := by rfl

theorem sanity_flatten_three_level : flatten ex3Nodes ["f0", "f1"] = .ok ex3Out := by rfl

theorem sanity_flatten_leaf_only :
    flatten [leafNode 5] ["f0"] = .error .concatenateError := by rfl

/-! ## Decimal representation: `Nat.repr` is injective -/

theorem toDigitsCore_eq_decRepr (f n : ℕ) (acc : List Char) (h : n < f) :
    Nat.toDigitsCore 10 f n acc = decRepr n ++ acc := by
  induction f generalizing n acc with
  | zero => exact absurd h (Nat.not_lt_zero n)
  | succ f ih =>
    show (if n / 10 = 0 then Nat.digitChar (n % 10) :: acc
          else Nat.toDigitsCore 10 f (n / 10) (Nat.digitChar (n % 10) :: acc)) =
        decRepr n ++ acc
    by_cases h10 : n / 10 = 0
    · have hn : n < 10 := by omega
      rw [if_pos h10, decRepr, dif_pos hn, Nat.mod_eq_of_lt hn]
      rfl
    · have hn : ¬n < 10 := fun hlt => h10 (Nat.div_eq_of_lt hlt)
      have hlt : n / 10 < f := by
        have h1 : n / 10 < n := Nat.div_lt_self (by omega) (by omega)
        omega
      rw [if_neg h10, decRepr, dif_neg hn, ih (n / 10) _ hlt, List.append_assoc]
      rfl

theorem repr_eq_decRepr (n : ℕ) : Nat.repr n = String.mk (decRepr n) := by
  show (Nat.toDigitsCore 10 (n + 1) n []).asString = String.mk (decRepr n)
  rw [toDigitsCore_eq_decRepr (n + 1) n [] (Nat.lt_succ_self n), List.append_nil]
  rfl

theorem digitChar_toNat_sub (d : ℕ) (h : d < 10) : (Nat.digitChar d).toNat - 48 = d := by
  interval_cases d <;> rfl

theorem foldl_decRepr (n a : ℕ) :
    (decRepr n).foldl (fun acc c => 10 * acc + (c.toNat - 48)) a =
      a * 10 ^ (decRepr n).length + n := by
  induction n using Nat.strong_induction_on generalizing a with
  | _ n ih =>
    by_cases h : n < 10
    · rw [decRepr, dif_pos h]
      simp [digitChar_toNat_sub n h]
      omega
    · rw [decRepr, dif_neg h]
      have h1 : n / 10 < n := Nat.div_lt_self (by omega) (by omega)
      rw [List.foldl_append, ih (n / 10) h1 a]
      simp [digitChar_toNat_sub (n % 10) (Nat.mod_lt n (by omega))]
      have hdm : 10 * (n / 10) + n % 10 = n := Nat.div_add_mod n 10
      ring_nf
      omega

theorem decRepr_inj {m n : ℕ} (h : decRepr m = decRepr n) : m = n := by
  have hm := foldl_decRepr m 0
  have hn := foldl_decRepr n 0
  rw [h] at hm
  simp at hm hn
  omega

theorem repr_inj {m n : ℕ} (h : Nat.repr m = Nat.repr n) : m = n :=
  decRepr_inj (congrArg String.data (by rwa [repr_eq_decRepr, repr_eq_decRepr] at h))

theorem repr_ne_of_ne {m n : ℕ} (h : m ≠ n) : Nat.repr m ≠ Nat.repr n :=
  fun he => h (repr_inj he)

/-! ## Dict lemmas -/

theorem dictUpdate_of_not_mem {α β : Type} [DecidableEq α] (d : List (α × β)) (k : α)
    (v : β) (h : k ∉ d.map Prod.fst) : dictUpdate d k v = d ++ [(k, v)] := by
  rw [dictUpdate, if_neg h]

theorem keys_dictUpdate_of_not_mem {α β : Type} [DecidableEq α] (d : List (α × β))
    (k : α) (v : β) (h : k ∉ d.map Prod.fst) :
    (dictUpdate d k v).map Prod.fst = d.map Prod.fst ++ [k] := by
  rw [dictUpdate_of_not_mem d k v h, List.map_append]
  rfl

theorem dictGetD_update_self {α β : Type} [DecidableEq α] (d : List (α × β)) (dflt : β)
    (k : α) (v : β) : dictGetD (dictUpdate d k v) dflt k = v := by
  rw [dictUpdate]
  split
  · rename_i hm
    induction d with
    | nil => simp at hm
    | cons p d ih =>
      by_cases hp : p.1 = k
      · simp [dictGetD, hp]
      · have hm' : k ∈ d.map Prod.fst := by
          simp only [List.map_cons, List.mem_cons] at hm
          rcases hm with h1 | h2
          · exact absurd h1.symm hp
          · exact h2
        simpa [dictGetD, hp] using ih hm'
  · rename_i hm
    induction d with
    | nil => simp [dictGetD]
    | cons p d ih =>
      have hp : ¬p.1 = k := fun hpk => hm (by simp [hpk])
      have hm' : k ∉ d.map Prod.fst := fun hk => hm (by simp [hk])
      simpa [dictGetD, hp] using ih hm'

theorem dictGetD_overwrite_ne {α β : Type} [DecidableEq α] (d : List (α × β)) (dflt : β)
    (k : α) (v : β) (k' : α) (hne : k' ≠ k) :
    dictGetD (d.map (fun p => if p.1 = k then (k, v) else p)) dflt k' =
      dictGetD d dflt k' := by
  induction d with
  | nil => rfl
  | cons p d ih =>
    by_cases hp : p.1 = k
    · have h1 : ¬k = k' := fun h => hne h.symm
      have h2 : ¬p.1 = k' := fun h => hne ((h ▸ hp) ▸ rfl : k' = k)
      simp only [List.map_cons, if_pos hp, dictGetD, if_neg h1, if_neg h2]
      exact ih
    · simp only [List.map_cons, if_neg hp, dictGetD]
      by_cases hp' : p.1 = k'
      · simp [hp']
      · simp only [if_neg hp']
        exact ih

theorem dictGetD_append_single_ne {α β : Type} [DecidableEq α] (d : List (α × β))
    (dflt : β) (k : α) (v : β) (k' : α) (hne : k' ≠ k) :
    dictGetD (d ++ [(k, v)]) dflt k' = dictGetD d dflt k' := by
  induction d with
  | nil =>
    have h1 : ¬k = k' := fun h => hne h.symm
    simp [dictGetD, h1]
  | cons p d ih =>
    by_cases hp : p.1 = k'
    · simp [dictGetD, hp]
    · simp only [List.cons_append, dictGetD, if_neg hp]
      exact ih

theorem dictGetD_update_ne {α β : Type} [DecidableEq α] (d : List (α × β)) (dflt : β)
    (k : α) (v : β) (k' : α) (hne : k' ≠ k) :
    dictGetD (dictUpdate d k v) dflt k' = dictGetD d dflt k' := by
  rw [dictUpdate]
  split
  · exact dictGetD_overwrite_ne d dflt k v k' hne
  · exact dictGetD_append_single_ne d dflt k v k' hne

theorem dictGetD_update {α β : Type} [DecidableEq α] (d : List (α × β)) (dflt : β)
    (k : α) (v : β) (k' : α) :
    dictGetD (dictUpdate d k v) dflt k' =
      if k' = k then v else dictGetD d dflt k' := by
  by_cases h : k' = k
  · subst h
    rw [if_pos rfl, dictGetD_update_self]
  · rw [if_neg h, dictGetD_update_ne d dflt k v k' h]

/-! ## Truncation lemmas -/

theorem length_toU256 (s : String) : (toU256 s).length ≤ 256 := by
  show (s.data.take 256).length ≤ 256
  rw [List.length_take]
  omega

theorem toU256_of_length_le (s : String) (h : s.length ≤ 256) : toU256 s = s := by
  have hd : s.data.length ≤ 256 := h
  show String.mk (s.data.take 256) = s
  rw [List.take_of_length_le hd]

theorem toU256_empty : toU256 "" = "" := rfl

theorem toU256_repr_of_lt (n : ℕ) (h : n < 10 ^ 256) :
    toU256 (Nat.repr n) = Nat.repr n :=
  toU256_of_length_le _ (Nat.repr_length n 256 (by norm_num) h)

theorem toI32_of_range (z : ℤ) (h0 : 0 ≤ z) (h1 : z < 2 ^ 31) : toI32 z = z := by
  unfold toI32
  omega

/-! ## `pyGetNode` characterization -/

theorem pyGetNode_error_iff (nodes : List TreeNode) (i : ℤ) (e : FlattenError) :
    pyGetNode nodes i = .error e ↔ e = .indexError ∧ outOfRange nodes i := by
  unfold pyGetNode outOfRange
  split
  · rename_i h
    constructor
    · intro hcontra
      exact Except.noConfusion hcontra
    · rintro ⟨rfl, hor⟩
      omega
  · split
    · rename_i h h'
      constructor
      · intro hcontra
        exact Except.noConfusion hcontra
      · rintro ⟨rfl, hor⟩
        omega
    · rename_i h h'
      constructor
      · intro he
        injection he with he1
        exact ⟨he1.symm, by omega⟩
      · rintro ⟨rfl, hor⟩
        rfl

theorem pyGetNode_of_inRange (nodes : List TreeNode) (i : ℤ) (h0 : 0 ≤ i)
    (h1 : i < (nodes.length : ℤ)) :
    pyGetNode nodes i = .ok (nodes.get ⟨i.toNat, by omega⟩) := by
  unfold pyGetNode
  rw [dif_pos ⟨h0, h1⟩]

theorem pyGetNode_ok_of_not_outOfRange (nodes : List TreeNode) (i : ℤ)
    (h : ¬outOfRange nodes i) : ∃ nd, pyGetNode nodes i = .ok nd := by
  unfold outOfRange at h
  unfold pyGetNode
  split
  · exact ⟨_, rfl⟩
  · split
    · exact ⟨_, rfl⟩
    · rename_i h1 h2
      exfalso
      omega

theorem pyGetNode_mem (nodes : List TreeNode) (i : ℤ) (nd : TreeNode)
    (h : pyGetNode nodes i = .ok nd) : nd ∈ nodes := by
  unfold pyGetNode at h
  split at h
  · rw [← Except.ok.inj h]
    exact List.get_mem _ _ _
  · split at h
    · rw [← Except.ok.inj h]
      exact List.get_mem _ _ _
    · exact Except.noConfusion h

/-! ## `processNode` characterization -/

theorem processNode_leaf (nodes : List TreeNode) (names : List String) (idx : ℕ)
    (s : FlattenState) (nd : TreeNode) (h : nd.left_child = -1) :
    processNode nodes names idx s nd = .ok s := by
  unfold processNode
  rw [if_pos h]

theorem processNode_nonleaf (nodes : List TreeNode) (names : List String) (idx : ℕ)
    (s : FlattenState) (nd lnode rnode : TreeNode)
    (hnl : ¬nd.left_child = -1)
    (hl : pyGetNode nodes nd.left_child = .ok lnode)
    (hr : pyGetNode nodes nd.right_child = .ok rnode) :
    processNode nodes names idx s nd = .ok (stepState names idx s nd lnode rnode) := by
  have hLR : Nat.repr s.split_names_lookup.length ≠
      Nat.repr (s.split_names_lookup.length + 1) := repr_ne_of_ne (by omega)
  unfold processNode stepState
  rw [if_neg hnl]
  simp only [hl, hr, dictGetD_update_self, dictGetD_update_ne _ _ _ _ _ hLR]

theorem processNode_ok_elim (nodes : List TreeNode) (names : List String) (idx : ℕ)
    (s s' : FlattenState) (nd : TreeNode)
    (hnl : ¬nd.left_child = -1)
    (h : processNode nodes names idx s nd = .ok s') :
    ∃ lnode rnode, pyGetNode nodes nd.left_child = .ok lnode ∧
      pyGetNode nodes nd.right_child = .ok rnode ∧
      s' = stepState names idx s nd lnode rnode := by
  cases hl : pyGetNode nodes nd.left_child with
  | error e =>
    unfold processNode at h
    rw [if_neg hnl] at h
    simp only [hl] at h
    exact Except.noConfusion h
  | ok lnode =>
    cases hr : pyGetNode nodes nd.right_child with
    | error e =>
      unfold processNode at h
      rw [if_neg hnl] at h
      simp only [hl, hr] at h
      exact Except.noConfusion h
    | ok rnode =>
      refine ⟨lnode, rnode, rfl, rfl, ?_⟩
      have heq := processNode_nonleaf nodes names idx s nd lnode rnode hnl hl hr
      rw [h] at heq
      exact Except.ok.inj heq

theorem processNode_error_elim (nodes : List TreeNode) (names : List String) (idx : ℕ)
    (s : FlattenState) (nd : TreeNode) (e : FlattenError)
    (h : processNode nodes names idx s nd = .error e) : e = .indexError := by
  by_cases hnl : nd.left_child = -1
  · rw [processNode_leaf nodes names idx s nd hnl] at h
    exact Except.noConfusion h
  · cases hl : pyGetNode nodes nd.left_child with
    | error e' =>
      have he' : e' = .indexError := ((pyGetNode_error_iff nodes _ e').mp hl).1
      unfold processNode at h
      rw [if_neg hnl] at h
      simp only [hl] at h
      injection h with h2
      rw [← h2]
      exact he'
    | ok lnode =>
      cases hr : pyGetNode nodes nd.right_child with
      | error e' =>
        have he' : e' = .indexError := ((pyGetNode_error_iff nodes _ e').mp hr).1
        unfold processNode at h
        rw [if_neg hnl] at h
        simp only [hl, hr] at h
        injection h with h2
        rw [← h2]
        exact he'
      | ok rnode =>
        rw [processNode_nonleaf nodes names idx s nd lnode rnode hnl hl hr] at h
        exact Except.noConfusion h

theorem processNode_error_of_hasBadChild (nodes : List TreeNode) (names : List String)
    (idx : ℕ) (s : FlattenState) (nd : TreeNode) (hb : hasBadChild nodes nd) :
    processNode nodes names idx s nd = .error .indexError := by
  obtain ⟨hnl, hor⟩ := hb
  rcases hor with hL | hR
  · have hl : pyGetNode nodes nd.left_child = .error .indexError :=
      (pyGetNode_error_iff nodes _ _).mpr ⟨rfl, hL⟩
    unfold processNode
    rw [if_neg hnl]
    simp only [hl]
  · cases hl : pyGetNode nodes nd.left_child with
    | error e =>
      have he : e = .indexError := ((pyGetNode_error_iff nodes _ e).mp hl).1
      unfold processNode
      rw [if_neg hnl]
      simp only [hl, he]
    | ok lnode =>
      have hr : pyGetNode nodes nd.right_child = .error .indexError :=
        (pyGetNode_error_iff nodes _ _).mpr ⟨rfl, hR⟩
      unfold processNode
      rw [if_neg hnl]
      simp only [hl, hr]

/-! ## Loop lemmas -/

theorem flattenLoop_error_of_bad (nodes : List TreeNode) (names : List String) :
    ∀ (rest : List TreeNode) (m : ℕ) (s : FlattenState),
      (∃ nd ∈ rest, hasBadChild nodes nd) →
      flattenLoop nodes names m s rest = .error .indexError := by
  intro rest
  induction rest with
  | nil =>
    rintro m s ⟨nd, hnd, _⟩
    simp at hnd
  | cons nd rest ih =>
    rintro m s ⟨nd', hnd', hbad⟩
    show (match processNode nodes names m s nd with
      | .error e => (.error e : Except FlattenError FlattenState)
      | .ok s' => flattenLoop nodes names (m + 1) s' rest) = .error .indexError
    cases hpn : processNode nodes names m s nd with
    | error e =>
      rw [processNode_error_elim nodes names m s nd e hpn]
    | ok s' =>
      rcases List.mem_cons.mp hnd' with rfl | hmem
      · rw [processNode_error_of_hasBadChild nodes names m s nd' hbad] at hpn
        exact Except.noConfusion hpn
      · exact ih (m + 1) s' ⟨nd', hmem, hbad⟩

theorem flattenLoop_inv (nodes : List TreeNode) (names : List String)
    (P : ℕ → FlattenState → Prop)
    (hstep : ∀ m s s' (hm : m < nodes.length),
      processNode nodes names m s (nodes.get ⟨m, hm⟩) = .ok s' → P m s → P (m + 1) s') :
    ∀ (rest : List TreeNode) (m : ℕ) (s s_fin : FlattenState),
      rest = nodes.drop m → m ≤ nodes.length →
      flattenLoop nodes names m s rest = .ok s_fin →
      P m s → P nodes.length s_fin := by
  intro rest
  induction rest with
  | nil =>
    intro m s s_fin hdrop hm hrun hP
    have hlen : nodes.length ≤ m := List.drop_eq_nil_iff.mp hdrop.symm
    have hms : m = nodes.length := le_antisymm hm hlen
    have hs : s = s_fin := Except.ok.inj hrun
    rw [← hms, ← hs]
    exact hP
  | cons nd rest ih =>
    intro m s s_fin hdrop hm hrun hP
    have hmlt : m < nodes.length := by
      by_contra hge
      rw [List.drop_eq_nil_of_le (by omega)] at hdrop
      exact List.noConfusion hdrop
    rw [List.drop_eq_getElem_cons hmlt] at hdrop
    have hnd : nd = nodes.get ⟨m, hmlt⟩ := by
      have := (List.cons.inj hdrop).1
      simpa [List.get_eq_getElem] using this
    have hrest : rest = nodes.drop (m + 1) := (List.cons.inj hdrop).2
    revert hrun
    show (match processNode nodes names m s nd with
      | .error e => (.error e : Except FlattenError FlattenState)
      | .ok s' => flattenLoop nodes names (m + 1) s' rest) = .ok s_fin →
      P nodes.length s_fin
    cases hpn : processNode nodes names m s nd with
    | error e =>
      intro hrun
      exact Except.noConfusion hrun
    | ok s' =>
      intro hrun
      refine ih (m + 1) s' s_fin hrest (by omega) hrun ?_
      exact hstep m s s' hmlt (hnd ▸ hpn) hP

theorem flatten_ok_elim (nodes : List TreeNode) (names : List String)
    (out : List SplitRecord) (h : flatten nodes names = .ok out) :
    ∃ s_fin, flattenLoop nodes names 0 initState nodes = .ok s_fin ∧
      s_fin.all_node_details = out ∧ out ≠ [] := by
  unfold flatten at h
  cases hrun : flattenLoop nodes names 0 initState nodes with
  | error e =>
    simp only [hrun] at h
    exact Except.noConfusion h
  | ok s =>
    simp only [hrun] at h
    by_cases he : s.all_node_details.isEmpty
    · rw [if_pos he] at h
      exact Except.noConfusion h
    · rw [if_neg he] at h
      refine ⟨s, rfl, Except.ok.inj h, ?_⟩
      rw [← Except.ok.inj h]
      intro hnil
      exact he (by rw [hnil]; rfl)

theorem flatten_inv (nodes : List TreeNode) (names : List String)
    (out : List SplitRecord) (P : ℕ → FlattenState → Prop)
    (hstep : ∀ m s s' (hm : m < nodes.length),
      processNode nodes names m s (nodes.get ⟨m, hm⟩) = .ok s' → P m s → P (m + 1) s')
    (hinit : P 0 initState) (h : flatten nodes names = .ok out) :
    ∃ s_fin, s_fin.all_node_details = out ∧ P nodes.length s_fin := by
  obtain ⟨s_fin, hrun, hout, _⟩ := flatten_ok_elim nodes names out h
  exact ⟨s_fin, hout,
    flattenLoop_inv nodes names P hstep nodes 0 initState s_fin rfl (by omega) hrun hinit⟩

/-! ## `countNonLeaf` arithmetic -/

theorem countNonLeaf_append (xs ys : List TreeNode) :
    countNonLeaf (xs ++ ys) = countNonLeaf xs + countNonLeaf ys := by
  induction xs with
  | nil => simp [countNonLeaf]
  | cons x xs ih =>
    show (if x.left_child = -1 then 0 else 1) + countNonLeaf (xs ++ ys) =
      (if x.left_child = -1 then 0 else 1) + countNonLeaf xs + countNonLeaf ys
    rw [ih]
    omega

theorem take_succ_eq (nodes : List TreeNode) (m : ℕ) (hm : m < nodes.length) :
    nodes.take (m + 1) = nodes.take m ++ [nodes.get ⟨m, hm⟩] := by
  rw [← List.take_concat_get nodes m hm, List.concat_eq_append]
  rfl

theorem countNonLeaf_take_succ (nodes : List TreeNode) (m : ℕ) (hm : m < nodes.length) :
    countNonLeaf (nodes.take (m + 1)) = countNonLeaf (nodes.take m) +
      (if (nodes.get ⟨m, hm⟩).left_child = -1 then 0 else 1) := by
  rw [take_succ_eq nodes m hm, countNonLeaf_append]
  simp [countNonLeaf]

theorem countNonLeaf_take_mono (nodes : List TreeNode) (m m' : ℕ) (h : m ≤ m') :
    countNonLeaf (nodes.take m) ≤ countNonLeaf (nodes.take m') := by
  have hsplit : nodes.take m' = nodes.take m ++ (nodes.take m').drop m := by
    conv_lhs => rw [← List.take_append_drop m (nodes.take m')]
    rw [List.take_take, min_eq_left h]
  rw [hsplit, countNonLeaf_append]
  omega

theorem countNonLeaf_take_length (nodes : List TreeNode) :
    countNonLeaf (nodes.take nodes.length) = countNonLeaf nodes := by
  rw [List.take_length]

/-! ## The main loop invariant -/

theorem repr_not_mem_range_map (n m : ℕ) (h : m ≤ n) :
    Nat.repr n ∉ (List.range m).map Nat.repr := by
  intro hmem
  rcases List.mem_map.mp hmem with ⟨x, hx, hxe⟩
  have := repr_inj hxe
  rw [List.mem_range] at hx
  omega

theorem step_names_keys (d : List (String × String)) (c : ℕ)
    (hkeys : d.map Prod.fst = (List.range c).map Nat.repr) (a b : String) :
    (dictUpdate (dictUpdate d (Nat.repr c) a) (Nat.repr (c + 1)) b).map Prod.fst =
      (List.range (c + 2)).map Nat.repr := by
  have h1 : Nat.repr c ∉ d.map Prod.fst := by
    rw [hkeys]
    exact repr_not_mem_range_map c c le_rfl
  have hk1 := keys_dictUpdate_of_not_mem d (Nat.repr c) a h1
  have h2 : Nat.repr (c + 1) ∉ (dictUpdate d (Nat.repr c) a).map Prod.fst := by
    rw [hk1, hkeys]
    intro hmem
    rcases List.mem_append.mp hmem with hmem | hmem
    · exact repr_not_mem_range_map (c + 1) c (by omega) hmem
    · have h := List.mem_singleton.mp hmem
      exact absurd (repr_inj h) (by omega)
  rw [keys_dictUpdate_of_not_mem _ _ _ h2, hk1, hkeys]
  show (List.range c).map Nat.repr ++ [Nat.repr c] ++ [Nat.repr (c + 1)] = _
  have : c + 2 = (c + 1) + 1 := rfl
  rw [this, List.range_succ, List.range_succ, List.map_append, List.map_append]
  simp

theorem get_append_two_left (l : List SplitRecord) (a b : SplitRecord) (p : ℕ)
    (hp : p < l.length) (hp' : p < (l ++ [a, b]).length) :
    (l ++ [a, b]).get ⟨p, hp'⟩ = l.get ⟨p, hp⟩ := by
  simp [List.get_eq_getElem, List.getElem_append_left hp]

theorem get_append_two_mid (l : List SplitRecord) (a b : SplitRecord)
    (h : l.length < (l ++ [a, b]).length) :
    (l ++ [a, b]).get ⟨l.length, h⟩ = a := by
  simp [List.get_eq_getElem, List.getElem_append_right (le_refl l.length)]

theorem get_append_two_last (l : List SplitRecord) (a b : SplitRecord)
    (h : l.length + 1 < (l ++ [a, b]).length) :
    (l ++ [a, b]).get ⟨l.length + 1, h⟩ = b := by
  simp [List.get_eq_getElem, List.getElem_append_right (by omega : l.length ≤ l.length + 1)]

theorem stepState_names (names : List String) (idx : ℕ) (s : FlattenState)
    (nd lnode rnode : TreeNode) :
    (stepState names idx s nd lnode rnode).split_names_lookup =
      dictUpdate (dictUpdate s.split_names_lookup
          (Nat.repr s.split_names_lookup.length)
          (split_name_left (feature_names_lookup names nd.feature) nd.threshold))
        (Nat.repr (s.split_names_lookup.length + 1))
        (split_name_right (feature_names_lookup names nd.feature) nd.threshold) := rfl

theorem stepState_cp (names : List String) (idx : ℕ) (s : FlattenState)
    (nd lnode rnode : TreeNode) :
    (stepState names idx s nd lnode rnode).child_parent_lookup =
      dictUpdate (dictUpdate s.child_parent_lookup nd.left_child
          (Nat.repr s.split_names_lookup.length))
        nd.right_child (Nat.repr (s.split_names_lookup.length + 1)) := rfl

theorem stepState_details (names : List String) (idx : ℕ) (s : FlattenState)
    (nd lnode rnode : TreeNode) :
    (stepState names idx s nd lnode rnode).all_node_details =
      s.all_node_details ++
        [mkSplitRecord (dictGetD s.child_parent_lookup "" (idx : ℤ))
            (Nat.repr s.split_names_lookup.length)
            (split_name_left (feature_names_lookup names nd.feature) nd.threshold)
            lnode.n_node_samples (feature_names_lookup names nd.feature),
          mkSplitRecord (dictGetD s.child_parent_lookup "" (idx : ℤ))
            (Nat.repr (s.split_names_lookup.length + 1))
            (split_name_right (feature_names_lookup names nd.feature) nd.threshold)
            rnode.n_node_samples (feature_names_lookup names nd.feature)] := rfl

theorem mkSplitRecord_parent_id (a b c : String) (v : ℤ) (e : String) :
    (mkSplitRecord a b c v e).parent_id = toU256 a := rfl

theorem mkSplitRecord_split_id (a b c : String) (v : ℤ) (e : String) :
    (mkSplitRecord a b c v e).split_id = toU256 b := rfl

theorem get_congr_idx {α : Type} (l : List α) (p q : ℕ) (h : p = q)
    (hp : p < l.length) : l.get ⟨p, hp⟩ = l.get ⟨q, h ▸ hp⟩ := by
  subst h
  rfl

theorem LoopInv_init (nodes : List TreeNode) (names : List String) :
    LoopInv nodes names 0 initState := by
  refine ⟨rfl, rfl, ?_, ?_, ?_, ?_⟩
  · intro p hp
    exact absurd hp (by simp [initState])
  · intro k
    exact Or.inl rfl
  · intro p hp
    exact absurd hp (by simp [initState])
  · intro i hi
    exact absurd hi (by omega)

theorem LoopInv_step (nodes : List TreeNode) (names : List String)
    (m : ℕ) (s s' : FlattenState) (hm : m < nodes.length)
    (hpn : processNode nodes names m s (nodes.get ⟨m, hm⟩) = .ok s')
    (hInv : LoopInv nodes names m s) : LoopInv nodes names (m + 1) s' := by
  obtain ⟨h1, h2, h3, h4, h5, h6⟩ := hInv
  by_cases hleaf : (nodes.get ⟨m, hm⟩).left_child = -1
  · have hs : s = s' :=
      Except.ok.inj ((processNode_leaf nodes names m s _ hleaf).symm.trans hpn)
    subst hs
    have hcnt : countNonLeaf (nodes.take (m + 1)) = countNonLeaf (nodes.take m) := by
      rw [countNonLeaf_take_succ nodes m hm, if_pos hleaf]
      omega
    refine ⟨?_, ?_, h3, ?_, h5, ?_⟩
    · rw [hcnt]
      exact h1
    · rw [hcnt]
      exact h2
    · rw [hcnt]
      exact h4
    · intro i hi him hnl lnode hl rnode hr
      rcases Nat.lt_succ_iff_lt_or_eq.mp hi with hi' | rfl
      · exact h6 i hi' him hnl lnode hl rnode hr
      · exact absurd hleaf hnl
  · obtain ⟨lnode, rnode, hl, hr, hs'⟩ :=
      processNode_ok_elim nodes names m s s' _ hleaf hpn
    subst hs'
    have hcnt : countNonLeaf (nodes.take (m + 1)) = countNonLeaf (nodes.take m) + 1 := by
      rw [countNonLeaf_take_succ nodes m hm, if_neg hleaf]
    have hlen : s.split_names_lookup.length = 2 * countNonLeaf (nodes.take m) := by
      have hh := congrArg List.length h1
      simpa using hh
    have hdetlen : s.all_node_details.length = 2 * countNonLeaf (nodes.take m) := h2
    refine ⟨?_, ?_, ?_, ?_, ?_, ?_⟩
    · -- (1) keys of split_names_lookup
      rw [stepState_names, hlen, hcnt]
      have he2 : 2 * (countNonLeaf (nodes.take m) + 1) =
          2 * countNonLeaf (nodes.take m) + 2 := by omega
      rw [he2]
      exact step_names_keys s.split_names_lookup (2 * countNonLeaf (nodes.take m)) h1 _ _
    · -- (2) length of details
      rw [stepState_details, List.length_append, hdetlen, hcnt]
      show 2 * countNonLeaf (nodes.take m) + 2 = _
      omega
    · -- (3) split ids
      simp only [stepState_details]
      intro p hp
      have hp2 : p < s.all_node_details.length + 2 := by
        simpa using hp
      rcases Nat.lt_or_ge p s.all_node_details.length with hplt | hpge
      · rw [get_append_two_left _ _ _ p hplt]
        exact h3 p hplt
      · have hp3 : p = s.all_node_details.length ∨ p = s.all_node_details.length + 1 := by
          omega
        rcases hp3 with rfl | rfl
        · rw [get_append_two_mid, mkSplitRecord_split_id, hlen, hdetlen]
        · rw [get_append_two_last, mkSplitRecord_split_id, hlen, hdetlen]
    · -- (4) child_parent_lookup values
      intro k
      rw [stepState_cp, dictGetD_update, dictGetD_update]
      split_ifs with hk1 hk2
      · exact Or.inr ⟨s.split_names_lookup.length + 1, by omega, by rw [hlen]⟩
      · exact Or.inr ⟨s.split_names_lookup.length, by omega, by rw [hlen]⟩
      · rcases h4 k with hemp | ⟨pp, hpp, he⟩
        · exact Or.inl hemp
        · exact Or.inr ⟨pp, by omega, he⟩
    · -- (5) parent linkage
      simp only [stepState_details]
      intro p hp
      have hp2 : p < s.all_node_details.length + 2 := by
        simpa using hp
      rcases Nat.lt_or_ge p s.all_node_details.length with hplt | hpge
      · rw [get_append_two_left _ _ _ p hplt]
        rcases h5 p hplt with hemp | ⟨q, hqp, hq, he⟩
        · exact Or.inl hemp
        · refine Or.inr ⟨q, hqp, ⟨by simp; omega, ?_⟩⟩
          rw [get_append_two_left _ _ _ q hq]
          exact he
      · have hp3 : p = s.all_node_details.length ∨ p = s.all_node_details.length + 1 := by
          omega
        rcases h4 (m : ℤ) with hemp | ⟨pp, hpp, he⟩
        · refine Or.inl ?_
          rcases hp3 with rfl | rfl
          · rw [get_append_two_mid, mkSplitRecord_parent_id, hemp, toU256_empty]
          · rw [get_append_two_last, mkSplitRecord_parent_id, hemp, toU256_empty]
        · have hpq : pp < s.all_node_details.length := by omega
          refine Or.inr ⟨pp, by omega, ⟨by simp; omega, ?_⟩⟩
          rw [get_append_two_left _ _ _ pp hpq, h3 pp hpq]
          rcases hp3 with rfl | rfl
          · rw [get_append_two_mid, mkSplitRecord_parent_id, he]
          · rw [get_append_two_last, mkSplitRecord_parent_id, he]
    · -- (6) per-split record contents
      simp only [stepState_details]
      intro i hi him hnl lnode' hl' rnode' hr'
      rcases Nat.lt_succ_iff_lt_or_eq.mp hi with hi' | rfl
      · obtain ⟨h2i, parent, heqL, heqR⟩ := h6 i hi' him hnl lnode' hl' rnode' hr'
        have hbL : 2 * countNonLeaf (nodes.take i) < s.all_node_details.length := by
          omega
        refine ⟨by simp; omega, parent, ?_, ?_⟩
        · rw [get_append_two_left _ _ _ _ hbL]
          exact heqL
        · rw [get_append_two_left _ _ _ _ h2i]
          exact heqR
      · obtain rfl : lnode' = lnode := Except.ok.inj (hl'.symm.trans hl)
        obtain rfl : rnode' = rnode := Except.ok.inj (hr'.symm.trans hr)
        refine ⟨by simp; omega, dictGetD s.child_parent_lookup "" (i : ℤ), ?_, ?_⟩
        · rw [get_congr_idx _ _ s.all_node_details.length (by omega),
            get_append_two_mid, hlen]
        · rw [get_congr_idx _ _ (s.all_node_details.length + 1) (by omega),
            get_append_two_last, hlen]

theorem flatten_LoopInv (nodes : List TreeNode) (names : List String)
    (out : List SplitRecord) (h : flatten nodes names = .ok out) :
    ∃ s_fin, s_fin.all_node_details = out ∧ LoopInv nodes names nodes.length s_fin :=
  flatten_inv nodes names out (LoopInv nodes names)
    (fun m s s' hm hpn hP => LoopInv_step nodes names m s s' hm hpn hP)
    (LoopInv_init nodes names) h

theorem countNonLeaf_le_length (l : List TreeNode) : countNonLeaf l ≤ l.length := by
  induction l with
  | nil => exact le_refl 0
  | cons x l ih =>
    show (if x.left_child = -1 then 0 else 1) + countNonLeaf l ≤ l.length + 1
    split <;> omega

/-- Claim C3: for a successful flattening run the output is dense and
well-linked: two rows per non-leaf node, row `p` carries
`split_id = str(p)` (ids minted by a counter advancing 2 per split, in
visitation order), all `split_id`s are distinct, and every `parent_id`
is the empty root sentinel or the `split_id` of an earlier row — the
output is a tree rooted at the empty-parent rows.  The size bound
`nodes.length < 2 ^ 63` (automatic: numpy arrays are int64-indexed, so
larger inputs cannot exist) keeps the decimal ids within the 256
characters of their `U256` slot. -/
theorem claim3_output_ids_and_linkage (nodes : List TreeNode) (names : List String)
    (out : List SplitRecord) (hsz : nodes.length < 2 ^ 63)
    (hok : flatten nodes names = .ok out) :
    out.length = 2 * countNonLeaf nodes ∧
    (∀ p (hp : p < out.length), (out.get ⟨p, hp⟩).split_id = Nat.repr p) ∧
    (∀ p q (hp : p < out.length) (hq : q < out.length), p ≠ q →
      (out.get ⟨p, hp⟩).split_id ≠ (out.get ⟨q, hq⟩).split_id) ∧
    (∀ p (hp : p < out.length), (out.get ⟨p, hp⟩).parent_id = "" ∨
      ∃ q, q < p ∧ ∃ (hq : q < out.length),
        (out.get ⟨q, hq⟩).split_id = (out.get ⟨p, hp⟩).parent_id) := by
  obtain ⟨s_fin, hout, h1, h2, h3, h4, h5, h6⟩ := flatten_LoopInv nodes names out hok
  subst hout
  rw [countNonLeaf_take_length] at h2
  have hlen : s_fin.all_node_details.length < 10 ^ 256 := by
    have hc := countNonLeaf_le_length nodes
    have hb : s_fin.all_node_details.length < 2 ^ 64 := by
      rw [h2]
      omega
    calc s_fin.all_node_details.length < 2 ^ 64 := hb
      _ ≤ 10 ^ 256 := by norm_num
  have hid : ∀ p (hp : p < s_fin.all_node_details.length),
      (s_fin.all_node_details.get ⟨p, hp⟩).split_id = Nat.repr p := by
    intro p hp
    rw [h3 p hp, toU256_repr_of_lt p (by omega)]
  refine ⟨h2, hid, ?_, h5⟩
  intro p q hp hq hne
  rw [hid p hp, hid q hq]
  exact repr_ne_of_ne hne

/-- Claim C4 (amended): every non-leaf node of a valid tree contributes
exactly one left row then one right row, at positions `2k`, `2k + 1`
for `k` the number of non-leaf nodes before it; labels are the two
fixed templates over the node's own feature name and two-decimal
threshold (stored in `U256` slots, hence truncated to 256 characters);
each row's `value` is the corresponding child's sample count cast into
the int32 `'i'` slot — equal to the count itself whenever it is below
`2^31`, wrapped otherwise; and colour is the node's feature name (also
`U256`-truncated).  The second conjunct is the spec's concrete example:
one split on `f0` at `1.50` over two leaves with 4 and 6 samples. -/
theorem claim4_two_records_per_split :
    (∀ (nodes : List TreeNode) (names : List String) (out : List SplitRecord)
      (i : ℕ) (hi : i < nodes.length), ValidTree nodes →
      flatten nodes names = .ok out → (nodes.get ⟨i, hi⟩).left_child ≠ -1 →
      ∃ lnode rnode,
        pyGetNode nodes (nodes.get ⟨i, hi⟩).left_child = .ok lnode ∧
        pyGetNode nodes (nodes.get ⟨i, hi⟩).right_child = .ok rnode ∧
        ∃ (hb : 2 * countNonLeaf (nodes.take i) + 1 < out.length),
          (out.get ⟨2 * countNonLeaf (nodes.take i), by omega⟩).split_name =
            toU256 (split_name_left
              (feature_names_lookup names (nodes.get ⟨i, hi⟩).feature)
              (nodes.get ⟨i, hi⟩).threshold) ∧
          (out.get ⟨2 * countNonLeaf (nodes.take i) + 1, hb⟩).split_name =
            toU256 (split_name_right
              (feature_names_lookup names (nodes.get ⟨i, hi⟩).feature)
              (nodes.get ⟨i, hi⟩).threshold) ∧
          (out.get ⟨2 * countNonLeaf (nodes.take i), by omega⟩).value =
            toI32 lnode.n_node_samples ∧
          (lnode.n_node_samples < 2 ^ 31 →
            (out.get ⟨2 * countNonLeaf (nodes.take i), by omega⟩).value =
              lnode.n_node_samples) ∧
          (out.get ⟨2 * countNonLeaf (nodes.take i) + 1, hb⟩).value =
            toI32 rnode.n_node_samples ∧
          (rnode.n_node_samples < 2 ^ 31 →
            (out.get ⟨2 * countNonLeaf (nodes.take i) + 1, hb⟩).value =
              rnode.n_node_samples) ∧
          (out.get ⟨2 * countNonLeaf (nodes.take i), by omega⟩).colour =
            toU256 (feature_names_lookup names (nodes.get ⟨i, hi⟩).feature) ∧
          (out.get ⟨2 * countNonLeaf (nodes.take i) + 1, hb⟩).colour =
            toU256 (feature_names_lookup names (nodes.get ⟨i, hi⟩).feature)) ∧
    flatten exNodes ["f0"] = .ok exOut := by
  refine ⟨?_, by rfl⟩
  intro nodes names out i hi hv hok hnl
  obtain ⟨hvs, hvb, hvd⟩ := hv
  obtain ⟨⟨hlcl, hlcu⟩, ⟨hrcl, hrcu⟩, hlr⟩ := hvb i hi hnl
  have hl := pyGetNode_of_inRange nodes (nodes.get ⟨i, hi⟩).left_child
    (by omega) hlcu
  have hr := pyGetNode_of_inRange nodes (nodes.get ⟨i, hi⟩).right_child
    (by omega) hrcu
  obtain ⟨s_fin, hout, h1, h2, h3, h4, h5, h6⟩ := flatten_LoopInv nodes names out hok
  subst hout
  obtain ⟨hb, parent, heqL, heqR⟩ := h6 i hi hi hnl _ hl _ hr
  refine ⟨_, _, hl, hr, hb, ?_, ?_, ?_, ?_, ?_, ?_, ?_, ?_⟩
  · rw [heqL]
    rfl
  · rw [heqR]
    rfl
  · rw [heqL]
    rfl
  · intro hlt
    rw [heqL]
    show toI32 _ = _
    exact toI32_of_range _ (hvs _ (pyGetNode_mem nodes _ _ hl)) hlt
  · rw [heqR]
    rfl
  · intro hlt
    rw [heqR]
    show toI32 _ = _
    exact toI32_of_range _ (hvs _ (pyGetNode_mem nodes _ _ hr)) hlt
  · rw [heqL]
    rfl
  · rw [heqR]
    rfl

/-- Claim C5: multi-level linkage.  If non-leaf node `j` is the left
(`side = 0`) or right (`side = 1`) child of non-leaf node `i` in a
valid tree, then both rows of the `j` split carry `parent_id` equal to
the `split_id` of the corresponding edge row of the `i` split — the edge
that leads into `j`. -/
theorem claim5_multilevel_linkage (nodes : List TreeNode) (names : List String)
    (out : List SplitRecord) (i j : ℕ) (hi : i < nodes.length) (hj : j < nodes.length)
    (hv : ValidTree nodes) (hok : flatten nodes names = .ok out)
    (hni : (nodes.get ⟨i, hi⟩).left_child ≠ -1)
    (hnj : (nodes.get ⟨j, hj⟩).left_child ≠ -1) (side : ℕ) (hs : side ≤ 1)
    (hchild : (if side = 0 then (nodes.get ⟨i, hi⟩).left_child
      else (nodes.get ⟨i, hi⟩).right_child) = (j : ℤ)) :
    ∃ (h1 : 2 * countNonLeaf (nodes.take i) + side < out.length)
      (h2 : 2 * countNonLeaf (nodes.take j) + 1 < out.length),
      (out.get ⟨2 * countNonLeaf (nodes.take j), by omega⟩).parent_id =
        (out.get ⟨2 * countNonLeaf (nodes.take i) + side, h1⟩).split_id ∧
      (out.get ⟨2 * countNonLeaf (nodes.take j) + 1, h2⟩).parent_id =
        (out.get ⟨2 * countNonLeaf (nodes.take i) + side, h1⟩).split_id := by
  obtain ⟨hvs, hvb, hvd⟩ := hv
  have hij : i < j := by
    obtain ⟨⟨hlcl, _⟩, ⟨hrcl, _⟩, _⟩ := hvb i hi hni
    by_cases h0 : side = 0
    · rw [if_pos h0] at hchild
      omega
    · rw [if_neg h0] at hchild
      omega
  have hstep : ∀ (m : ℕ) (s s' : FlattenState) (hm : m < nodes.length),
      processNode nodes names m s (nodes.get ⟨m, hm⟩) = .ok s' →
      (LoopInv nodes names m s ∧
        (i < m → dictGetD s.child_parent_lookup "" (j : ℤ) =
          Nat.repr (2 * countNonLeaf (nodes.take i) + side)) ∧
        (j < m → ∃ (hx : 2 * countNonLeaf (nodes.take j) + 1 <
            s.all_node_details.length),
          (s.all_node_details.get
            ⟨2 * countNonLeaf (nodes.take j), by omega⟩).parent_id =
            toU256 (Nat.repr (2 * countNonLeaf (nodes.take i) + side)) ∧
          (s.all_node_details.get
            ⟨2 * countNonLeaf (nodes.take j) + 1, hx⟩).parent_id =
            toU256 (Nat.repr (2 * countNonLeaf (nodes.take i) + side)))) →
      (LoopInv nodes names (m + 1) s' ∧
        (i < m + 1 → dictGetD s'.child_parent_lookup "" (j : ℤ) =
          Nat.repr (2 * countNonLeaf (nodes.take i) + side)) ∧
        (j < m + 1 → ∃ (hx : 2 * countNonLeaf (nodes.take j) + 1 <
            s'.all_node_details.length),
          (s'.all_node_details.get
            ⟨2 * countNonLeaf (nodes.take j), by omega⟩).parent_id =
            toU256 (Nat.repr (2 * countNonLeaf (nodes.take i) + side)) ∧
          (s'.all_node_details.get
            ⟨2 * countNonLeaf (nodes.take j) + 1, hx⟩).parent_id =
            toU256 (Nat.repr (2 * countNonLeaf (nodes.take i) + side)))) := by
    intro m s s' hm hpn hP
    obtain ⟨hInv, hQ1, hQ2⟩ := hP
    refine ⟨LoopInv_step nodes names m s s' hm hpn hInv, ?_, ?_⟩
    · intro him1
      by_cases hleaf : (nodes.get ⟨m, hm⟩).left_child = -1
      · have hss : s = s' :=
          Except.ok.inj ((processNode_leaf nodes names m s _ hleaf).symm.trans hpn)
        subst hss
        rcases Nat.lt_succ_iff_lt_or_eq.mp him1 with him | heq
        · exact hQ1 him
        · subst heq
          exact absurd hleaf hni
      · obtain ⟨lnode, rnode, hl, hr, hs'⟩ :=
          processNode_ok_elim nodes names m s s' _ hleaf hpn
        subst hs'
        obtain ⟨h1, h2, h3, h4, h5, h6⟩ := hInv
        have hlen : s.split_names_lookup.length =
            2 * countNonLeaf (nodes.take m) := by
          have hh := congrArg List.length h1
          simpa using hh
        rw [stepState_cp]
        rcases Nat.lt_succ_iff_lt_or_eq.mp him1 with him | heq
        · have hmni : m ≠ i := by omega
          obtain ⟨d1, d2, d3, d4⟩ := hvd m hm i hi hmni hleaf hni
          have hLne : (nodes.get ⟨m, hm⟩).left_child ≠ (j : ℤ) := by
            by_cases h0 : side = 0
            · rw [if_pos h0] at hchild
              rw [← hchild]
              exact d1
            · rw [if_neg h0] at hchild
              rw [← hchild]
              exact d2
          have hRne : (nodes.get ⟨m, hm⟩).right_child ≠ (j : ℤ) := by
            by_cases h0 : side = 0
            · rw [if_pos h0] at hchild
              rw [← hchild]
              exact d3
            · rw [if_neg h0] at hchild
              rw [← hchild]
              exact d4
          rw [dictGetD_update_ne _ _ _ _ _ (fun he => hRne he.symm),
            dictGetD_update_ne _ _ _ _ _ (fun he => hLne he.symm)]
          exact hQ1 him
        · subst heq
          obtain ⟨_, _, hlrne⟩ := hvb i hm hni
          by_cases h0 : side = 0
          · subst h0
            rw [if_pos rfl] at hchild
            have hchild2 : (nodes.get ⟨i, hm⟩).left_child = (j : ℤ) := hchild
            rw [dictGetD_update_ne _ _ _ _ _
                (fun he => hlrne (hchild2.trans he)),
              ← hchild2, dictGetD_update_self, hlen, Nat.add_zero]
          · have h1s : side = 1 := by omega
            subst h1s
            rw [if_neg (by omega)] at hchild
            have hchild2 : (nodes.get ⟨i, hm⟩).right_child = (j : ℤ) := hchild
            rw [← hchild2, dictGetD_update_self, hlen]
    · intro hjm1
      by_cases hleaf : (nodes.get ⟨m, hm⟩).left_child = -1
      · have hss : s = s' :=
          Except.ok.inj ((processNode_leaf nodes names m s _ hleaf).symm.trans hpn)
        subst hss
        rcases Nat.lt_succ_iff_lt_or_eq.mp hjm1 with hjm | heq
        · exact hQ2 hjm
        · subst heq
          exact absurd hleaf hnj
      · obtain ⟨lnode, rnode, hl, hr, hs'⟩ :=
          processNode_ok_elim nodes names m s s' _ hleaf hpn
        subst hs'
        obtain ⟨h1, h2, h3, h4, h5, h6⟩ := hInv
        have hlen : s.split_names_lookup.length =
            2 * countNonLeaf (nodes.take m) := by
          have hh := congrArg List.length h1
          simpa using hh
        have hdetlen : s.all_node_details.length =
            2 * countNonLeaf (nodes.take m) := h2
        simp only [stepState_details]
        rcases Nat.lt_succ_iff_lt_or_eq.mp hjm1 with hjm | heq
        · obtain ⟨hx, hpL, hpR⟩ := hQ2 hjm
          refine ⟨by simp; omega, ?_, ?_⟩
          · rw [get_append_two_left _ _ _ _ (by omega)]
            exact hpL
          · rw [get_append_two_left _ _ _ _ hx]
            exact hpR
        · subst heq
          refine ⟨by simp; omega, ?_, ?_⟩
          · rw [get_congr_idx _ _ s.all_node_details.length (by omega),
              get_append_two_mid, mkSplitRecord_parent_id, hQ1 hij]
          · rw [get_congr_idx _ _ (s.all_node_details.length + 1) (by omega),
              get_append_two_last, mkSplitRecord_parent_id, hQ1 hij]
  obtain ⟨s_fin, hout, hfin⟩ := flatten_inv nodes names out _ hstep
    ⟨LoopInv_init nodes names, fun h => absurd h (by omega),
      fun h => absurd h (by omega)⟩ hok
  subst hout
  obtain ⟨⟨h1, h2, h3, h4, h5, h6⟩, hQ1, hQ2⟩ := hfin
  rw [countNonLeaf_take_length] at h2
  obtain ⟨hx, hpL, hpR⟩ := hQ2 hj
  have hki : countNonLeaf (nodes.take i) + 1 ≤ countNonLeaf (nodes.take j) := by
    have hstep1 : countNonLeaf (nodes.take (i + 1)) =
        countNonLeaf (nodes.take i) + 1 := by
      rw [countNonLeaf_take_succ nodes i hi, if_neg hni]
    have hmono := countNonLeaf_take_mono nodes (i + 1) j hij
    omega
  have hb1 : 2 * countNonLeaf (nodes.take i) + side <
      s_fin.all_node_details.length := by
    omega
  refine ⟨hb1, hx, ?_, ?_⟩
  · rw [hpL, h3 _ hb1]
  · rw [hpR, h3 _ hb1]

set_option maxRecDepth 4000 in
/-- Claim C10: every string field of every emitted row lives in a
fixed-width `U256` slot: at most 256 characters survive, and an
overlong formatted label or feature name is silently cut to its first
256 characters rather than kept whole or rejected.  The closed
conjuncts run the pass on a 300-character feature name: the call
succeeds and both rows' `colour` (and label) slots hold exactly the
first 256 characters of the name. -/
theorem claim10_u256_truncation :
    (∀ (nodes : List TreeNode) (names : List String) (out : List SplitRecord),
      flatten nodes names = .ok out → ∀ r ∈ out,
        r.parent_id.length ≤ 256 ∧ r.split_id.length ≤ 256 ∧
        r.split_name.length ≤ 256 ∧ r.colour.length ≤ 256) ∧
    flatten longNameANodes [longNameA] = .ok longNameAOut ∧
    longNameA.length = 300 ∧
    longNameAOut.map SplitRecord.colour =
      [String.mk (longNameA.data.take 256), String.mk (longNameA.data.take 256)] := by
  refine ⟨?_, by rfl, by rfl, by rfl⟩
  intro nodes names out hok r hr
  obtain ⟨s_fin, hout, hP⟩ := flatten_inv nodes names out
    (fun _ s => ∀ r ∈ s.all_node_details,
      r.parent_id.length ≤ 256 ∧ r.split_id.length ≤ 256 ∧
      r.split_name.length ≤ 256 ∧ r.colour.length ≤ 256)
    (fun m s s' hm hpn hP => by
      by_cases hleaf : (nodes.get ⟨m, hm⟩).left_child = -1
      · have hss : s = s' :=
          Except.ok.inj ((processNode_leaf nodes names m s _ hleaf).symm.trans hpn)
        subst hss
        exact hP
      · obtain ⟨lnode, rnode, hl, hr2, hs'⟩ :=
          processNode_ok_elim nodes names m s s' _ hleaf hpn
        subst hs'
        intro r hrmem
        rw [stepState_details] at hrmem
        rcases List.mem_append.mp hrmem with hmem | hmem
        · exact hP r hmem
        · have hmem2 : r = mkSplitRecord (dictGetD s.child_parent_lookup "" (m : ℤ))
              (Nat.repr s.split_names_lookup.length)
              (split_name_left (feature_names_lookup names (nodes.get ⟨m, hm⟩).feature)
                (nodes.get ⟨m, hm⟩).threshold)
              lnode.n_node_samples
              (feature_names_lookup names (nodes.get ⟨m, hm⟩).feature) ∨
            r = mkSplitRecord (dictGetD s.child_parent_lookup "" (m : ℤ))
              (Nat.repr (s.split_names_lookup.length + 1))
              (split_name_right (feature_names_lookup names (nodes.get ⟨m, hm⟩).feature)
                (nodes.get ⟨m, hm⟩).threshold)
              rnode.n_node_samples
              (feature_names_lookup names (nodes.get ⟨m, hm⟩).feature) := by
            simpa using hmem
          rcases hmem2 with rfl | rfl
          · exact ⟨length_toU256 _, length_toU256 _, length_toU256 _, length_toU256 _⟩
          · exact ⟨length_toU256 _, length_toU256 _, length_toU256 _, length_toU256 _⟩)
    (fun r hr0 => absurd hr0 (by simp [initState]))
    hok
  rw [← hout] at hr
  exact hP r hr

/-- Claim C2 (amended): the pass performs no structural-integrity
validation.  The only structural condition that aborts it is a child
index outside numpy's index range for the array, which raises
`IndexError` (not a dedicated structural error); shared or cyclic
in-range children are processed silently (see the counterexample). -/
theorem claim2_index_error_on_oob_child (nodes : List TreeNode) (names : List String)
    (hbad : ∃ nd ∈ nodes, hasBadChild nodes nd) :
    flatten nodes names = .error .indexError := by
  have hrun := flattenLoop_error_of_bad nodes names nodes 0 initState hbad
  unfold flatten
  rw [hrun]

/-- Claim C1 (the code contradicts it): on an input whose only node is
a leaf root the loop emits nothing, so `np.concatenate([])` at line 227
raises `ValueError` — the call fails instead of returning the empty
record sequence the spec requires. -/
theorem claim1_leaf_only_root_raises (names : List String) (ns : ℤ) :
    flatten [leafNode ns] names = .error .concatenateError := rfl

/-- Claim C6: an empty node sequence makes the whole call abort: the
loop body never runs and `np.concatenate([])` raises `ValueError`. -/
theorem claim6_empty_input_fails (names : List String) :
    flatten [] names = .error .concatenateError := rfl

/-- Claim C8: the flattening is a pure function of the node array and
the name table — running it twice on the same input yields identical
output. -/
theorem claim8_deterministic (nodes : List TreeNode) (names : List String) :
    flatten nodes names = flatten nodes names := rfl

/-- Claim C9: a node is classified as a leaf solely by
`left_child == -1`: such a node is skipped with the state unchanged —
no rows, no error — whatever its `right_child`, `feature`, `threshold`
and `n_node_samples` hold. -/
theorem claim9_leaf_by_left_child_only (nodes : List TreeNode) (names : List String)
    (idx : ℕ) (s : FlattenState) (rc f : ℤ) (th : ℚ) (ns : ℤ) :
    processNode nodes names idx s ⟨-1, rc, f, th, ns⟩ = .ok s :=
  processNode_leaf nodes names idx s _ rfl

/-- Claim C7: a feature index absent from the name table is non-fatal:
the lookup returns the empty string, and the node is still processed
into two rows whose label has an empty feature segment and whose
`colour` (category) is the empty string. -/
theorem claim7_lookup_miss_nonfatal (nodes : List TreeNode) (names : List String)
    (idx : ℕ) (s : FlattenState) (nd lnode rnode : TreeNode)
    (hnl : nd.left_child ≠ -1)
    (hf : nd.feature < 0 ∨ (names.length : ℤ) ≤ nd.feature)
    (hl : pyGetNode nodes nd.left_child = .ok lnode)
    (hr : pyGetNode nodes nd.right_child = .ok rnode) :
    feature_names_lookup names nd.feature = "" ∧
    split_name_left "" nd.threshold = " <= " ++ format2 nd.threshold ∧
    split_name_right "" nd.threshold = " > " ++ format2 nd.threshold ∧
    ∃ s', processNode nodes names idx s nd = .ok s' ∧
      s'.all_node_details = s.all_node_details ++
        [mkSplitRecord (dictGetD s.child_parent_lookup "" (idx : ℤ))
            (Nat.repr s.split_names_lookup.length)
            (split_name_left "" nd.threshold) lnode.n_node_samples "",
          mkSplitRecord (dictGetD s.child_parent_lookup "" (idx : ℤ))
            (Nat.repr (s.split_names_lookup.length + 1))
            (split_name_right "" nd.threshold) rnode.n_node_samples ""] := by
  have hlook : feature_names_lookup names nd.feature = "" := by
    unfold feature_names_lookup
    rw [dif_neg]
    rintro ⟨ha, hb⟩
    omega
  refine ⟨hlook, rfl, rfl, stepState names idx s nd lnode rnode,
    processNode_nonleaf nodes names idx s nd lnode rnode hnl hl hr, ?_⟩
  rw [stepState_details, hlook]

/-- Claim C2 counterexample: the root claims node 1 as both its left
and right child — not "valid, previously-unclaimed indices" — yet the
pass does not abort with any error: it silently returns two rows. -/
theorem claim2_counterexample :
    flatten sharedChildNodes ["f0"] = .ok sharedChildOut := rfl

/-- Witness for the amended claim C2: a right-child index 5 in a
2-element array aborts the whole call with `IndexError`. -/
theorem claim2_witness :
    flatten oobChildNodes ["f0"] = .error .indexError :=
  claim2_index_error_on_oob_child oobChildNodes ["f0"] (by decide)

/-- Witness for claim C3 at a concrete input: one split, two rows. -/
theorem claim3_witness :
    exNodes.length < 2 ^ 63 ∧ exOut.length = 2 * countNonLeaf exNodes :=
  ⟨by norm_num [exNodes], (claim3_output_ids_and_linkage exNodes ["f0"] exOut
    (by norm_num [exNodes]) rfl).1⟩

set_option maxRecDepth 4000 in
/-- Claim C4 counterexample, in two parts.  With a 257-character
feature name the emitted labels are not the full template strings —
the `U256` slots keep only their first 256 characters.  And with a
left leaf carrying `2^31` samples the emitted left `value` is not the
child's `n_node_samples` — the int32 `'i'` slot wraps it to `-2^31`. -/
theorem claim4_counterexample :
    (flatten longNameBNodes [longNameB] = .ok longNameBOut ∧
      longNameBOut.map SplitRecord.split_name ≠
        [split_name_left (feature_names_lookup [longNameB] 0) q32,
          split_name_right (feature_names_lookup [longNameB] 0) q32]) ∧
    (flatten bigCountNodes ["f0"] = .ok bigCountOut ∧
      bigCountOut.map SplitRecord.value ≠
        [(leafNode (2 ^ 31)).n_node_samples, (leafNode 6).n_node_samples]) :=
  ⟨⟨rfl, by decide⟩, ⟨by decide, by decide⟩⟩

/-- Witness for the amended claim C4 at the spec's concrete example:
the left row's value is the left leaf's sample count (which fits the
int32 slot). -/
theorem claim4_witness : (exOut.get ⟨0, by decide⟩).value = 4 := by
  obtain ⟨lnode, rnode, hl, hr, hb, hsn1, hsn2, hv1, hv1c, hv2, hv2c, hc1, hc2⟩ :=
    claim4_two_records_per_split.1 exNodes ["f0"] exOut 0 (by decide)
      (by decide) rfl (by decide)
  have hlv : lnode = leafNode 4 := Except.ok.inj
    (hl.symm.trans (rfl : pyGetNode exNodes (exNodes.get ⟨0, by decide⟩).left_child =
      .ok (leafNode 4)))
  rw [hlv] at hv1c
  exact hv1c (by decide)

/-- Witness for claim C5 at the concrete three-level tree: the deeper
split's first row points at the root's left edge row. -/
theorem claim5_witness :
    (ex3Out.get ⟨2, by decide⟩).parent_id = (ex3Out.get ⟨0, by decide⟩).split_id := by
  obtain ⟨h1, h2, hL, hR⟩ := claim5_multilevel_linkage ex3Nodes ["f0", "f1"] ex3Out
    0 1 (by decide) (by decide) (by decide) rfl (by decide) (by decide)
    0 (by decide) (by decide)
  exact hL

/-- Witness for claim C7: feature index 5 misses the one-entry table. -/
theorem claim7_witness : feature_names_lookup ["f0"] 5 = "" :=
  (claim7_lookup_miss_nonfatal [⟨1, 2, 5, q32, 10⟩, leafNode 4, leafNode 6] ["f0"]
    0 initState ⟨1, 2, 5, q32, 10⟩ (leafNode 4) (leafNode 6) (by decide)
    (Or.inr (by decide)) rfl rfl).1

set_option maxRecDepth 4000 in
/-- Witness for claim C10 at the 300-character feature name. -/
theorem claim10_witness :
    (longNameAOut.get ⟨0, by decide⟩).colour.length ≤ 256 :=
  (claim10_u256_truncation.1 longNameANodes [longNameA] longNameAOut rfl
    _ (List.get_mem _ _ _)).2.2.2
